import Mathlib

/-!
Verification development for the gitsync repository.

The definitions below are shallow embeddings of the Go sources:
* branch pattern matching and job validation from `internal/common/config.go`,
* workspace-name sanitisation and the push/rewrite control flow from
  `internal/services/sync.go`,
* the transaction store from `internal/store/store.go`,
* the ledger-writing per-target push loop from the `internal/sync` revision
  of the engine (`syncRepo`/`pushToTarget`).

Strings manipulated character-by-character are modelled as `List Char`;
fields that are only carried around or compared for equality use `String`.
Machine time (`time.Time`, `UnixNano`) is modelled as `Int` nanoseconds.
-/

set_option autoImplicit false
set_option maxRecDepth 4096

/-- Character list of a string literal. -/
def chars (s : String) : List Char := s.data

/-- Go `strings.HasPrefix s p`. -/
def goHasPrefix : List Char → List Char → Bool
  | _, [] => true
  | [], _ :: _ => false
  | c :: s, p :: ps => if c = p then goHasPrefix s ps else false

/-- Go `strings.HasSuffix s p`, via reversal. -/
def goHasSuffix (s p : List Char) : Bool :=
  goHasPrefix s.reverse p.reverse

/-- Go `strings.TrimPrefix s p`. -/
def goTrimPrefix (s p : List Char) : List Char :=
  if goHasPrefix s p then s.drop p.length else s

/-- Go `strings.TrimSuffix s p`. -/
def goTrimSuffix (s p : List Char) : List Char :=
  if goHasSuffix s p then s.take (s.length - p.length) else s

/-- Go `strings.Contains s string-of-c` for a one-character needle. -/
def containsChar (c : Char) : List Char → Bool
  | [] => false
  | x :: xs => if x = c then true else containsChar c xs

/-- Go `strings.Split s string-of-c` for a one-character separator. -/
def splitOnChar (c : Char) : List Char → List (List Char)
  | [] => [[]]
  | x :: xs =>
    match splitOnChar c xs with
    | [] => [[]]
    | h :: t => if x = c then [] :: h :: t else (x :: h) :: t

/-- Go `strings.ReplaceAll s old new`, fuelled so that the kernel can
evaluate it; every call site passes a non-empty `old`, and the fuel
`s.length` always suffices. -/
def replaceAllFuel (new old : List Char) : Nat → List Char → List Char
  | 0, s => s
  | _ + 1, [] => []
  | fuel + 1, c :: rest =>
    if goHasPrefix (c :: rest) old ∧ old ≠ [] then
      new ++ replaceAllFuel new old fuel ((c :: rest).drop old.length)
    else
      c :: replaceAllFuel new old fuel rest

/-- Go `strings.ReplaceAll s old new`: replace all non-overlapping
occurrences of `old` in `s` by `new`, scanning left to right. -/
def replaceAll (s old new : List Char) : List Char :=
  replaceAllFuel new old s.length s

/-- `matchesBranchPattern` from `internal/common/config.go`:
`"*"` matches everything; a leading `*` asks for a suffix match on the
remainder; a trailing `*` asks for a prefix match; a pattern splitting at
`*` into exactly two parts asks for independent prefix and suffix matches;
anything else is compared literally. -/
def matchesBranchPattern (branchName pattern : List Char) : Bool :=
  if pattern = ['*'] then
    true
  else if goHasPrefix pattern ['*'] then
    goHasSuffix branchName (goTrimPrefix pattern ['*'])
  else if goHasSuffix pattern ['*'] then
    goHasPrefix branchName (goTrimSuffix pattern ['*'])
  else if containsChar '*' pattern then
    match splitOnChar '*' pattern with
    | [p0, p1] => goHasPrefix branchName p0 && goHasSuffix branchName p1
    | _ => decide (branchName = pattern)
  else
    decide (branchName = pattern)

/- ### Sanity checks (spec §8 scenarios) -/

example : matchesBranchPattern (chars "feature-auth") (chars "feature-*") = true := by decide
example : matchesBranchPattern (chars "auth-sync") (chars "*-sync") = true := by decide
example : matchesBranchPattern (chars "main") (chars "feature-*") = false := by decide
example : matchesBranchPattern (chars "presuf") (chars "pre*suf") = true := by decide
example : matchesBranchPattern (chars "preXYZsuf") (chars "pre*suf") = true := by decide
example : matchesBranchPattern (chars "preZ") (chars "pre*suf") = false := by decide
example : matchesBranchPattern (chars "a/b") (chars "*") = true := by decide

/- ### Job configuration (`internal/common/config.go`) -/

/-- `AuthorReplacement` from `internal/common/config.go`. -/
structure AuthorReplacement where
  fromEmail : List Char
  fromName : List Char
  toEmail : List Char
  toName : List Char
deriving DecidableEq

/-- `JobConfig` from `internal/common/config.go`. -/
structure JobConfig where
  description : List Char
  enabled : Bool
  source : List Char
  targets : List (List Char)
  branches : List (List Char)
  override : Bool
  gitUsername : List Char
  gitToken : List Char
  gitTokenEnv : List Char
  sshKeyPath : List Char
  sshKeyEnv : List Char
  authorReplace : List AuthorReplacement
  rewriteHistory : Bool
deriving DecidableEq

/-- A job configuration with every field empty or false, used to build
concrete configurations in the theorems below. -/
def jcBase : JobConfig :=
  { description := [], enabled := true, source := [], targets := [], branches := []
    override := false, gitUsername := [], gitToken := [], gitTokenEnv := []
    sshKeyPath := [], sshKeyEnv := [], authorReplace := [], rewriteHistory := false }

/-- `JobConfig.ShouldSyncBranch`: the branch is in scope when some
configured pattern matches it. -/
def shouldSyncBranch (jc : JobConfig) (branchName : List Char) : Bool :=
  jc.branches.any (fun pattern => matchesBranchPattern branchName pattern)

/-- The per-job branch defaulting performed by `Config.Validate`: an empty
pattern list becomes the single pattern `"main"`. -/
def validateJobBranches (jc : JobConfig) : JobConfig :=
  if jc.branches = [] then { jc with branches := [chars "main"] } else jc

/-- The per-job portion of `Config.Validate`: reject an empty source or an
empty target list, then default the branch patterns. -/
def validateJob (jc : JobConfig) : Except String JobConfig :=
  if jc.source = [] then Except.error "source cannot be empty"
  else if jc.targets = [] then Except.error "at least one target must be configured"
  else Except.ok (validateJobBranches jc)

/-- `sanitizeName` from `internal/services/sync.go`: strip URL schemes,
`git@`, and `.git`, then map path separators and dots to dashes. -/
def sanitizeName (name : List Char) : List Char :=
  let n1 := replaceAll name (chars "https://") []
  let n2 := replaceAll n1 (chars "http://") []
  let n3 := replaceAll n2 (chars "git@") []
  let n4 := replaceAll n3 (chars ".git") []
  let n5 := replaceAll n4 (chars "/") (chars "-")
  let n6 := replaceAll n5 (chars ":") (chars "-")
  replaceAll n6 (chars ".") (chars "-")

/- ### History-rewrite gating (`internal/services/sync.go`) -/

/-- One `if`-block of the `git filter-branch --env-filter` script built by
`rewriteCommitAuthors`: a rule either matches on the author email or, when
it has no email, on the author name. -/
inductive FilterSegment where
  | byEmail (rule : AuthorReplacement)
  | byName (rule : AuthorReplacement)
deriving DecidableEq

/-- The sequence of filter-script blocks `rewriteCommitAuthors` generates:
a rule with a non-empty `from_email` contributes an email block, and a rule
with a non-empty `from_name` and an empty `from_email` contributes a name
block. -/
def authorFilterSegments : List AuthorReplacement → List FilterSegment
  | [] => []
  | r :: rs =>
    (if r.fromEmail ≠ [] then [FilterSegment.byEmail r] else []) ++
    (if r.fromName ≠ [] ∧ r.fromEmail = [] then [FilterSegment.byName r] else []) ++
    authorFilterSegments rs

/-- `rewriteCommitAuthors` invokes `git filter-branch` exactly when the
generated filter script is non-empty. -/
def rewriteCommitAuthorsRuns (jc : JobConfig) : Bool :=
  decide (authorFilterSegments jc.authorReplace ≠ [])

/-- The history rewrite as gated by `syncJob`: it is attempted when
`rewrite_history` is set and at least one replacement rule is configured,
and it actually runs `git filter-branch` when the filter script is
non-empty. `syncJob` consults no other field of the configuration. -/
def syncJobRewriteExecuted (jc : JobConfig) : Bool :=
  jc.rewriteHistory && decide (0 < jc.authorReplace.length) && rewriteCommitAuthorsRuns jc

/- ### Transaction store (`internal/store/store.go`) -/

/-- `Transaction` from `internal/store/store.go`; times are `Int`
nanoseconds (`time.Time`/`UnixNano`). -/
structure Transaction where
  id : String
  jobName : String
  repoName : String
  source : String
  target : String
  status : String
  commitHash : String
  startTime : Int
  endTime : Int
  error : String
deriving DecidableEq

def statusPending : String := "pending"
def statusRunning : String := "running"
def statusSuccess : String := "success"
def statusFailed : String := "failed"
def statusSkipped : String := "skipped"

/-- The zero `time.Time` (January 1, year 1 UTC) in nanoseconds relative to
the Unix epoch; the `EndTime` of a freshly created running transaction. -/
def goZeroTime : Int := -62135596800000000000

/-- Nanoseconds per day, used by the retention cutoff computation. -/
def nsPerDay : Int := 86400000000000

/-- The bbolt bucket holding the transactions, as an association list from
record identifier to record. -/
abbrev Bucket := List (String × Transaction)

/-- bbolt `Put`: replace the value at an existing key, else append. -/
def bucketPut : Bucket → String → Transaction → Bucket
  | [], k, v => [(k, v)]
  | (k', v') :: rest, k, v =>
    if k' = k then (k, v) :: rest else (k', v') :: bucketPut rest k v

/-- bbolt `Get`: the value stored at a key. -/
def bucketGet : Bucket → String → Option Transaction
  | [], _ => none
  | (k', v') :: rest, k => if k' = k then some v' else bucketGet rest k

/-- bbolt `Delete`: remove the entry stored at a key. -/
def bucketDelete : Bucket → String → Bucket
  | [], _ => []
  | (k', v') :: rest, k =>
    if k' = k then bucketDelete rest k else (k', v') :: bucketDelete rest k

/-- The identifier character set used by `generateRandomString`. -/
def idCharset : List Char := chars "abcdefghijklmnopqrstuvwxyz0123456789"

/-- `generateRandomString(8)` from `internal/store/store.go`. Despite its
name it is deterministic in the clock: every loop iteration reads
`time.Now().UnixNano()` (here `charClock i` for iteration `i`) and picks
`charset[reading % 36]`. -/
def generateRandomString (charClock : Nat → Int) : List Char :=
  (List.range 8).map (fun i => idCharset.getD (charClock i % 36).toNat 'a')

/-- `generateID`: `fmt.Sprintf("%d-%s", time.Now().UnixNano(),
generateRandomString(8))`, with `nano` the outer clock reading. -/
def generateID (nano : Int) (charClock : Nat → Int) : String :=
  String.mk ((toString nano).data ++ '-' :: generateRandomString charClock)

/-- `Store.SaveTransaction`: assign a generated identifier when the record
has none, then `Put` it into the bucket keyed by its identifier. Returns
the record as saved (Go mutates it through the pointer). -/
def saveTransaction (nano : Int) (charClock : Nat → Int) (tx : Transaction)
    (b : Bucket) : Transaction × Bucket :=
  let tx' := if tx.id = "" then { tx with id := generateID nano charClock } else tx
  (tx', bucketPut b tx'.id tx')

/-- The body of `Store.CleanupOldTransactions`: collect the keys of all
records whose `EndTime` is before the cutoff, then delete them. -/
def deleteOlderThan (cutoff : Int) (b : Bucket) : Bucket :=
  let toDelete := (b.filter (fun kv => decide (kv.2.endTime < cutoff))).map Prod.fst
  toDelete.foldl bucketDelete b

/-- `Store.CleanupOldTransactions`: the cutoff is `now` minus the retention
window in days. -/
def cleanupOldTransactions (now : Int) (retentionDays : Int) (b : Bucket) : Bucket :=
  deleteOlderThan (now - retentionDays * nsPerDay) b

/- ### Push attempt of the current engine (`internal/services/sync.go`) -/

/-- Environment of one `pushToTarget` call of `internal/services/sync.go`:
the exit behaviour of each external git command it runs, the state of the
target repository's branch, and the commit ancestry of the shared history.
`ancestorOf a b` means commit `a` is an ancestor of commit `b`. -/
structure PushEnv where
  getUrlOk : Bool
  addOk : Bool
  setUrlOk : Bool
  localCommit : Option String
  fetchTargetOk : Bool
  targetTip : Option String
  ancestorOf : String → String → Bool

/-- `getRemoteCommitHash` from `internal/services/sync.go`: fetch the
branch from the target remote, then `rev-parse` the remote-tracking ref;
either step failing (including the branch not existing on the target)
yields an error, modelled as `none`. -/
def getRemoteCommitHash (env : PushEnv) : Option String :=
  if env.fetchTargetOk then
    match env.targetTip with
    | some t => some t
    | none => none
  else none

/-- Modelled from the spec: the exit semantics of the external `git push`
command (§6 external command interface; glossary entries for safe and
force push). A forced push always succeeds and sets the target ref to the
pushed commit; a plain push succeeds exactly when it is a fast-forward —
the target branch is absent or its tip is an ancestor of the pushed
commit. The result is `some newTip` on success, `none` on failure. -/
def gitPush (anc : String → String → Bool) (tip : Option String)
    (localC : String) (force : Bool) : Option (Option String) :=
  if force then some (some localC)
  else
    match tip with
    | none => some (some localC)
    | some t => if anc t localC then some (some localC) else none

/-- Outcome classification of one `pushToTarget` call of
`internal/services/sync.go`. The `Bool` on the push constructors records
whether the issued `git push` carried `--force`. -/
inductive SvcPushResult where
  | remoteAddFailed
  | remoteSetFailed
  | localCommitFailed
  | skipped (commit : String)
  | pushFailed (forced : Bool)
  | pushedOk (forced : Bool)
deriving DecidableEq

/-- Result of one `pushToTarget` call together with the target branch tip
after the call. -/
structure SvcPushOutcome where
  result : SvcPushResult
  finalTip : Option String
deriving DecidableEq

/-- The push half of `pushToTarget`: issue `git push target branch:branch`,
with `--force` exactly when the job's `override` flag is set. -/
def svcDoPush (jc : JobConfig) (env : PushEnv) (localC : String) : SvcPushOutcome :=
  match gitPush env.ancestorOf env.targetTip localC jc.override with
  | some newTip => { result := SvcPushResult.pushedOk jc.override, finalTip := newTip }
  | none => { result := SvcPushResult.pushFailed jc.override, finalTip := env.targetTip }

/-- `pushToTarget` from `internal/services/sync.go`: ensure the named
remote exists (`get-url`, then `add` or `set-url`), resolve the local
commit, resolve the target's commit for the branch — an error there is
logged and the push proceeds; equality with the local commit skips the
push — and finally push, forced exactly when `override` is set. -/
def svcPushToTarget (jc : JobConfig) (env : PushEnv) : SvcPushOutcome :=
  if env.getUrlOk = false ∧ env.addOk = false then
    { result := SvcPushResult.remoteAddFailed, finalTip := env.targetTip }
  else if env.getUrlOk = true ∧ env.setUrlOk = false then
    { result := SvcPushResult.remoteSetFailed, finalTip := env.targetTip }
  else
    match env.localCommit with
    | none => { result := SvcPushResult.localCommitFailed, finalTip := env.targetTip }
    | some localC =>
      match getRemoteCommitHash env with
      | some r =>
        if r = localC then { result := SvcPushResult.skipped localC, finalTip := env.targetTip }
        else svcDoPush jc env localC
      | none => svcDoPush jc env localC

/-- The `SaveTransaction` calls made during one `pushToTarget` attempt of
`internal/services/sync.go`. That file never references the store package:
a push attempt of this engine performs no ledger writes at all, so the
list of saved records is empty by construction. -/
def svcPushLedgerWrites (_jc : JobConfig) (_env : PushEnv) : List Transaction := []

/-- The per-target loop of `syncBranchToTargets`: each target is attempted
in order and a failed attempt is only logged — the loop continues with the
remaining targets. -/
def svcSyncBranchToTargets (jc : JobConfig) (envs : List PushEnv) : List SvcPushOutcome :=
  envs.map (svcPushToTarget jc)

/- ### Ledger-writing engine (`internal/sync` revision: `syncRepo`) -/

/-- Environment of one `pushToTarget` call of the ledger-writing engine
revision: the remote-setup command results, the target branch state, and
whether the (always forced) push command itself succeeds. `errText` is the
text of the error returned on failure. -/
structure V3PushEnv where
  getUrlOk : Bool
  addOk : Bool
  setUrlOk : Bool
  targetTip : Option String
  pushNetOk : Bool
  errText : String

/-- Outcome classification of the ledger-writing engine's `pushToTarget`. -/
inductive V3Result where
  | setupFailed
  | pushFailed
  | pushedOk
deriving DecidableEq

/-- Result of the ledger-writing engine's `pushToTarget`, whether a push
command was issued at all, and the target tip afterwards. -/
structure V3Outcome where
  result : V3Result
  pushIssued : Bool
  finalTip : Option String
deriving DecidableEq

/-- `pushToTarget` of the ledger-writing engine revision: ensure the named
remote, then unconditionally `git push target branch --force` — there is
no comparison with the target's current commit and no non-forced mode. A
forced push that runs (`pushNetOk`) leaves the target at the local
commit. -/
def v3PushToTarget (env : V3PushEnv) (localC : String) : V3Outcome :=
  if env.getUrlOk = false ∧ env.addOk = false then
    { result := V3Result.setupFailed, pushIssued := false, finalTip := env.targetTip }
  else if env.getUrlOk = true ∧ env.setUrlOk = false then
    { result := V3Result.setupFailed, pushIssued := false, finalTip := env.targetTip }
  else if env.pushNetOk then
    { result := V3Result.pushedOk, pushIssued := true, finalTip := some localC }
  else
    { result := V3Result.pushFailed, pushIssued := true, finalTip := env.targetTip }

/-- The clock readings observed during one ledger push attempt:
`startNano` at record creation, `idNano` and `idCharClock` inside
`generateID`, `endNano` at completion. -/
structure AttemptTimes where
  startNano : Int
  idNano : Int
  idCharClock : Nat → Int
  endNano : Int

/-- The per-target body of `syncRepo` in the ledger-writing engine
revision: create a `running` transaction and save it, run `pushToTarget`,
then mutate the same record to `failed` (with the error text) or `success`
and save it again. Returns the push outcome, the sequence of records as
saved, and the resulting bucket. -/
def ledgerAttempt (jobName repoName source target commitHash : String)
    (env : V3PushEnv) (times : AttemptTimes) (b : Bucket) :
    V3Outcome × List Transaction × Bucket :=
  let tx0 : Transaction :=
    { id := "", jobName := jobName, repoName := repoName, source := source
      target := target, status := statusRunning, commitHash := commitHash
      startTime := times.startNano, endTime := goZeroTime, error := "" }
  let s1 := saveTransaction times.idNano times.idCharClock tx0 b
  let outcome := v3PushToTarget env commitHash
  if outcome.result = V3Result.pushedOk then
    let tx2 := { s1.1 with status := statusSuccess, endTime := times.endNano }
    let s2 := saveTransaction times.idNano times.idCharClock tx2 s1.2
    (outcome, [s1.1, s2.1], s2.2)
  else
    let tx2 :=
      { s1.1 with status := statusFailed, error := env.errText, endTime := times.endNano }
    let s2 := saveTransaction times.idNano times.idCharClock tx2 s1.2
    (outcome, [s1.1, s2.1], s2.2)


/- ### Lemmas about the string helpers -/

theorem goHasPrefix_nil_right (s : List Char) : goHasPrefix s [] = true := by
  cases s <;> rfl

theorem goHasPrefix_append_self (l r : List Char) : goHasPrefix (l ++ r) l = true := by
  induction l with
  | nil => exact goHasPrefix_nil_right r
  | cons x xs ih => simp [goHasPrefix, ih]

theorem goHasSuffix_nil_right (s : List Char) : goHasSuffix s [] = true := by
  simp [goHasSuffix, goHasPrefix_nil_right]

theorem goHasSuffix_append_self (i l : List Char) : goHasSuffix (i ++ l) l = true := by
  simp [goHasSuffix, List.reverse_append, goHasPrefix_append_self]

theorem goHasPrefix_cons (x : Char) (s : List Char) (c : Char) (p : List Char) :
    goHasPrefix (x :: s) (c :: p) = if x = c then goHasPrefix s p else false := by
  rfl

theorem goHasPrefix_cons_ne (x : Char) (s : List Char) (c : Char) (p : List Char)
    (h : x ≠ c) : goHasPrefix (x :: s) (c :: p) = false := by
  rw [goHasPrefix_cons, if_neg h]

theorem containsChar_eq_true_iff (c : Char) (l : List Char) :
    containsChar c l = true ↔ c ∈ l := by
  induction l with
  | nil => simp [containsChar]
  | cons x xs ih =>
    by_cases hx : x = c
    · subst hx; simp [containsChar]
    · simp [containsChar, hx, ih, Ne.symm hx]

theorem containsChar_eq_false_iff (c : Char) (l : List Char) :
    containsChar c l = false ↔ c ∉ l := by
  rw [← Bool.not_eq_true, not_iff_not]
  exact containsChar_eq_true_iff c l

theorem splitOnChar_ne_nil (c : Char) (l : List Char) : splitOnChar c l ≠ [] := by
  cases l with
  | nil => simp [splitOnChar]
  | cons x xs =>
    simp only [splitOnChar]
    cases splitOnChar c xs with
    | nil => simp
    | cons h t => by_cases hx : x = c <;> simp [hx]

theorem splitOnChar_of_not_mem (c : Char) (l : List Char) (h : c ∉ l) :
    splitOnChar c l = [l] := by
  induction l with
  | nil => rfl
  | cons x xs ih =>
    have hx : x ≠ c := fun hx => h (hx ▸ List.mem_cons_self x xs)
    have hxs : c ∉ xs := fun hm => h (List.mem_cons_of_mem x hm)
    simp [splitOnChar, ih hxs, hx]

theorem splitOnChar_append (c : Char) (pre suf : List Char) (h : c ∉ pre) :
    splitOnChar c (pre ++ c :: suf) = pre :: splitOnChar c suf := by
  induction pre with
  | nil =>
    obtain ⟨h0, t0, hs⟩ := List.exists_cons_of_ne_nil (splitOnChar_ne_nil c suf)
    simp [splitOnChar, hs]
  | cons x xs ih =>
    have hx : x ≠ c := fun hx => h (hx ▸ List.mem_cons_self x xs)
    have hxs : c ∉ xs := fun hm => h (List.mem_cons_of_mem x hm)
    have hrec := ih hxs
    rw [List.cons_append, splitOnChar, hrec]
    simp [hx]

theorem goHasSuffix_star_of_head_ne (z : Char) (zs : List Char) (suf : List Char)
    (hsne : suf ≠ []) (hsuf : '*' ∉ suf) :
    goHasSuffix ((z :: zs) ++ '*' :: suf) ['*'] = false := by
  have hrev : suf.reverse ≠ [] := by
    intro h
    exact hsne (by simpa using congrArg List.reverse h)
  obtain ⟨q, qs, hq⟩ := List.exists_cons_of_ne_nil hrev
  have hqmem : q ∈ suf := by
    have : q ∈ suf.reverse := by rw [hq]; exact List.mem_cons_self q qs
    simpa using this
  have hqne : q ≠ '*' := fun hc => hsuf (hc ▸ hqmem)
  have e1 : ((z :: zs) ++ '*' :: suf).reverse =
      q :: ((qs ++ ['*']) ++ (z :: zs).reverse) := by
    rw [List.reverse_append, List.reverse_cons, hq]
    simp
  rw [goHasSuffix, e1, show (['*'] : List Char).reverse = ['*'] from rfl]
  exact goHasPrefix_cons_ne _ _ _ _ hqne

theorem goHasPrefix_star_of_not_mem (P : List Char) (h : '*' ∉ P) :
    goHasPrefix P ['*'] = false := by
  cases P with
  | nil => rfl
  | cons z zs =>
    have hz : z ≠ '*' := fun hc => h (hc ▸ List.mem_cons_self z zs)
    exact goHasPrefix_cons_ne _ _ _ _ hz

theorem goHasSuffix_star_of_not_mem (P : List Char) (h : '*' ∉ P) :
    goHasSuffix P ['*'] = false := by
  cases hr : P.reverse with
  | nil => rw [goHasSuffix, hr]; rfl
  | cons q qs =>
    have hqmem : q ∈ P := by
      have : q ∈ P.reverse := by rw [hr]; exact List.mem_cons_self q qs
      simpa using this
    have hqne : q ≠ '*' := fun hc => h (hc ▸ hqmem)
    rw [goHasSuffix, hr, show (['*'] : List Char).reverse = ['*'] from rfl]
    exact goHasPrefix_cons_ne _ _ _ _ hqne

/-- Claim C6: for every branch name `B` and pattern `P` with at most one
`*` in a supported position, `matchesBranchPattern` agrees with the
reference case analysis: `"*"` always matches; `*suffix` matches iff `B`
ends with the suffix; `prefix*` matches iff `B` starts with the prefix; a
single interior `*` asks for independent, possibly overlapping, prefix and
suffix checks; a wildcard-free pattern matches iff `B` equals it. -/
theorem c6_pattern_matcher :
    (∀ B : List Char, matchesBranchPattern B ['*'] = true)
    ∧ (∀ B suf : List Char, '*' ∉ suf →
        matchesBranchPattern B ('*' :: suf) = goHasSuffix B suf)
    ∧ (∀ B pre : List Char, pre ≠ [] → '*' ∉ pre →
        matchesBranchPattern B (pre ++ ['*']) = goHasPrefix B pre)
    ∧ (∀ B pre suf : List Char, pre ≠ [] → suf ≠ [] → '*' ∉ pre → '*' ∉ suf →
        matchesBranchPattern B (pre ++ '*' :: suf) =
          (goHasPrefix B pre && goHasSuffix B suf))
    ∧ (∀ B P : List Char, '*' ∉ P → matchesBranchPattern B P = decide (B = P)) := by
  refine ⟨?_, ?_, ?_, ?_, ?_⟩
  · intro B
    simp [matchesBranchPattern]
  · intro B suf _
    cases suf with
    | nil => simp [matchesBranchPattern, goHasSuffix_nil_right]
    | cons y ys =>
      have h2 : goHasPrefix ('*' :: y :: ys) ['*'] = true := by
        rw [goHasPrefix_cons, if_pos rfl]
        exact goHasPrefix_nil_right _
      simp [matchesBranchPattern, goTrimPrefix, h2]
  · intro B pre hne hstar
    obtain ⟨z, zs, rfl⟩ := List.exists_cons_of_ne_nil hne
    have hz : z ≠ '*' := fun hc => hstar (hc ▸ List.mem_cons_self z zs)
    have h1 : z :: (zs ++ ['*']) ≠ ['*'] := by simp [hz]
    have h2 : goHasPrefix (z :: (zs ++ ['*'])) ['*'] = false :=
      goHasPrefix_cons_ne _ _ _ _ hz
    have h3 : goHasSuffix (z :: (zs ++ ['*'])) ['*'] = true := by
      rw [← List.cons_append]
      exact goHasSuffix_append_self _ _
    have hlen : ((z :: zs) ++ ['*']).length - (['*'] : List Char).length
        = (z :: zs).length := by simp
    have h4 : goTrimSuffix (z :: (zs ++ ['*'])) ['*'] = z :: zs := by
      rw [← List.cons_append, goTrimSuffix,
        if_pos (goHasSuffix_append_self (z :: zs) ['*']), hlen, List.take_left]
    simp [matchesBranchPattern, h1, h2, h3, h4]
  · intro B pre suf hpre hsuf hpstar hsstar
    obtain ⟨z, zs, rfl⟩ := List.exists_cons_of_ne_nil hpre
    have hz : z ≠ '*' := fun hc => hpstar (hc ▸ List.mem_cons_self z zs)
    have h1 : z :: (zs ++ '*' :: suf) ≠ ['*'] := by simp [hz]
    have h2 : goHasPrefix (z :: (zs ++ '*' :: suf)) ['*'] = false :=
      goHasPrefix_cons_ne _ _ _ _ hz
    have h3 : goHasSuffix (z :: (zs ++ '*' :: suf)) ['*'] = false := by
      rw [← List.cons_append]
      exact goHasSuffix_star_of_head_ne z zs suf hsuf hsstar
    have h4 : containsChar '*' (z :: (zs ++ '*' :: suf)) = true := by
      rw [← List.cons_append]
      exact (containsChar_eq_true_iff _ _).mpr
        (List.mem_append_right _ (List.mem_cons_self _ _))
    have h5 : splitOnChar '*' (z :: (zs ++ '*' :: suf)) = [z :: zs, suf] := by
      rw [← List.cons_append, splitOnChar_append _ _ _ hpstar,
        splitOnChar_of_not_mem _ _ hsstar]
    simp [matchesBranchPattern, h1, h2, h3, h4, h5]
  · intro B P hP
    have h1 : P ≠ ['*'] := fun hc => hP (hc ▸ List.mem_cons_self '*' [])
    have h2 : goHasPrefix P ['*'] = false := goHasPrefix_star_of_not_mem P hP
    have h3 : goHasSuffix P ['*'] = false := goHasSuffix_star_of_not_mem P hP
    have h4 : containsChar '*' P = false := (containsChar_eq_false_iff _ _).mpr hP
    simp [matchesBranchPattern, h1, h2, h3, h4]

/-- Witness for C6: the concrete checks of spec §8, including the
overlap example `matches("presuf", "pre*suf")`, via `c6_pattern_matcher`. -/
theorem c6_pattern_matcher_witness :
    matchesBranchPattern (chars "presuf") (chars "pre*suf") = true
    ∧ matchesBranchPattern (chars "feature-auth") (chars "feature-*") = true
    ∧ matchesBranchPattern (chars "auth-sync") (chars "*-sync") = true
    ∧ matchesBranchPattern (chars "main") (chars "main") = true := by
  obtain ⟨hstar, hsuf, hpre, hmid, hexact⟩ := c6_pattern_matcher
  refine ⟨?_, ?_, ?_, ?_⟩
  · have h := hmid (chars "presuf") (chars "pre") (chars "suf")
      (by decide) (by decide) (by decide) (by decide)
    have e : chars "pre" ++ '*' :: chars "suf" = chars "pre*suf" := by decide
    rw [e] at h
    rw [h]; decide
  · have h := hpre (chars "feature-auth") (chars "feature-") (by decide) (by decide)
    have e : chars "feature-" ++ ['*'] = chars "feature-*" := by decide
    rw [e] at h
    rw [h]; decide
  · have h := hsuf (chars "auth-sync") (chars "-sync") (by decide)
    have e : '*' :: chars "-sync" = chars "*-sync" := by decide
    rw [e] at h
    rw [h]; decide
  · have h := hexact (chars "main") (chars "main") (by decide)
    rw [h]; decide

/-- Claim C7 counterexample: the pattern `"**"` has more than one `*`, so
the claim says it should only match a branch literally equal to `"**"`;
but `matchesBranchPattern` treats it as a leading-wildcard pattern with
remainder `"*"`, so the branch `"*"` matches although it differs from the
literal pattern text. -/
theorem c7_counterexample :
    matchesBranchPattern (chars "*") (chars "**") = true
    ∧ chars "*" ≠ chars "**" := by
  decide

/-- Claim C7 (amended): only a pattern that neither starts nor ends with
`*` and does not split on `*` into exactly two parts (so: no wildcard at
all, or at least two wildcards, all interior) is compared literally; a
multi-wildcard pattern that starts or ends with `*` is instead handled by
the leading- or trailing-wildcard rule on the literal remainder. -/
theorem c7_literal_fallback : ∀ B P : List Char,
    goHasPrefix P ['*'] = false → goHasSuffix P ['*'] = false →
    (splitOnChar '*' P).length ≠ 2 →
    matchesBranchPattern B P = decide (B = P) := by
  intro B P h1 h2 h3
  have h0 : P ≠ ['*'] := by
    intro hc
    rw [hc] at h1
    exact absurd h1 (by decide)
  by_cases hc : containsChar '*' P = true
  · simp only [matchesBranchPattern, h0, h1, h2, hc, if_true, if_false,
      Bool.false_eq_true, ite_false]
    rcases hsp : splitOnChar '*' P with _ | ⟨a, _ | ⟨b, _ | ⟨c2, t3⟩⟩⟩
    · simp [h0, h1, h2, hc, hsp, matchesBranchPattern]
    · simp [h0, h1, h2, hc, hsp, matchesBranchPattern]
    · exact absurd (by rw [hsp]; rfl) h3
    · simp [h0, h1, h2, hc, hsp, matchesBranchPattern]
  · simp [matchesBranchPattern, h0, h1, h2, hc]

/-- Witness for C7 (amended): the all-interior multi-wildcard pattern
`"a*b*c"` matches only itself. -/
theorem c7_literal_fallback_witness :
    matchesBranchPattern (chars "a*b*c") (chars "a*b*c") = true
    ∧ matchesBranchPattern (chars "aXbYc") (chars "a*b*c") = false := by
  constructor
  · have h := c7_literal_fallback (chars "a*b*c") (chars "a*b*c")
      (by decide) (by decide) (by decide)
    rw [h]; decide
  · have h := c7_literal_fallback (chars "aXbYc") (chars "a*b*c")
      (by decide) (by decide) (by decide)
    rw [h]; decide

/-- Claim C8: a repository whose configured branch pattern set is empty
gets exactly the single pattern `"main"` from validation, and a branch is
then in scope iff it matches `"main"`. -/
theorem c8_default_branch : ∀ jc : JobConfig,
    jc.source ≠ [] → jc.targets ≠ [] → jc.branches = [] →
    validateJob jc = Except.ok { jc with branches := [chars "main"] }
    ∧ ∀ B : List Char,
        shouldSyncBranch { jc with branches := [chars "main"] } B
          = matchesBranchPattern B (chars "main") := by
  intro jc hs ht hb
  constructor
  · rw [validateJob, if_neg hs, if_neg ht, validateJobBranches, if_pos hb]
  · intro B
    simp [shouldSyncBranch]

/-- Witness for C8: a concrete repository with no configured branches is
validated to the single pattern `"main"`, and `"develop"` is checked
against exactly that pattern. -/
theorem c8_default_branch_witness :
    validateJob
      { jcBase with
          source := chars "https://github.com/org/repo.git"
          targets := [chars "https://gitlab.com/org/repo.git"] }
      = Except.ok
        { jcBase with
            source := chars "https://github.com/org/repo.git"
            targets := [chars "https://gitlab.com/org/repo.git"]
            branches := [chars "main"] }
    ∧ shouldSyncBranch
        { jcBase with
            source := chars "https://github.com/org/repo.git"
            targets := [chars "https://gitlab.com/org/repo.git"]
            branches := [chars "main"] } (chars "develop")
      = matchesBranchPattern (chars "develop") (chars "main") := by
  have h := c8_default_branch
    { jcBase with
        source := chars "https://github.com/org/repo.git"
        targets := [chars "https://gitlab.com/org/repo.git"] }
    (by decide) (by decide) rfl
  exact ⟨h.1, h.2 (chars "develop")⟩

theorem goHasPrefix_iff (s p : List Char) : goHasPrefix s p = true ↔ p <+: s := by
  induction p generalizing s with
  | nil => simp [goHasPrefix_nil_right]
  | cons x xs ih =>
    cases s with
    | nil => simp [goHasPrefix]
    | cons c s' =>
      rw [goHasPrefix_cons]
      by_cases hc : c = x
      · subst hc
        simp [ih, List.cons_prefix_cons]
      · simp [hc, List.cons_prefix_cons, Ne.symm hc]

theorem replaceAllFuel_of_no_occurrence (new old : List Char) :
    ∀ (fuel : Nat) (s : List Char), ¬ old <:+: s →
      replaceAllFuel new old fuel s = s := by
  intro fuel
  induction fuel with
  | zero => intro s _; rfl
  | succ n ih =>
    intro s hs
    cases s with
    | nil => rfl
    | cons c rest =>
      have hcond : ¬ (goHasPrefix (c :: rest) old = true ∧ old ≠ []) := by
        rintro ⟨hp, -⟩
        exact hs ((goHasPrefix_iff _ _).mp hp).isInfix
      have hrest : ¬ old <:+: rest := fun hinf => hs (List.infix_cons hinf)
      simp only [replaceAllFuel]
      rw [if_neg hcond, ih rest hrest]

theorem replaceAll_of_no_occurrence (s old new : List Char) (h : ¬ old <:+: s) :
    replaceAll s old new = s :=
  replaceAllFuel_of_no_occurrence new old s.length s h

theorem not_infix_of_not_mem (s old : List Char) (c : Char)
    (hc : c ∈ old) (hs : c ∉ s) : ¬ old <:+: s :=
  fun hinf => hs (hinf.subset hc)

theorem sanitizeName_clean_id (n : List Char)
    (h1 : '/' ∉ n) (h2 : ':' ∉ n) (h3 : '.' ∉ n) (h4 : '@' ∉ n) :
    sanitizeName n = n := by
  simp only [sanitizeName]
  rw [replaceAll_of_no_occurrence n _ _ (not_infix_of_not_mem n _ '/' (by decide) h1),
    replaceAll_of_no_occurrence n _ _ (not_infix_of_not_mem n _ '/' (by decide) h1),
    replaceAll_of_no_occurrence n _ _ (not_infix_of_not_mem n _ '@' (by decide) h4),
    replaceAll_of_no_occurrence n _ _ (not_infix_of_not_mem n _ '.' (by decide) h3),
    replaceAll_of_no_occurrence n _ _ (not_infix_of_not_mem n _ '/' (by decide) h1),
    replaceAll_of_no_occurrence n _ _ (not_infix_of_not_mem n _ ':' (by decide) h2),
    replaceAll_of_no_occurrence n _ _ (not_infix_of_not_mem n _ '.' (by decide) h3)]

/-- Claim C9 counterexample: the distinct source locations
`https://github.com/org/repo` and `github.com/org/repo` sanitise to the
same workspace token, so path derivation is not collision-free. -/
theorem c9_counterexample :
    sanitizeName (chars "https://github.com/org/repo")
      = sanitizeName (chars "github.com/org/repo")
    ∧ chars "https://github.com/org/repo" ≠ chars "github.com/org/repo" := by
  decide

/-- Claim C9 (amended): `sanitizeName` is not injective on all source
locations — sources differing only in the rewritten tokens can collide —
but it is the identity, and hence injective, on names containing none of
the rewritten characters `/`, `:`, `.`, `@`. -/
theorem c9_sanitize_injective_on_clean : ∀ a b : List Char,
    ('/' ∉ a ∧ ':' ∉ a ∧ '.' ∉ a ∧ '@' ∉ a) →
    ('/' ∉ b ∧ ':' ∉ b ∧ '.' ∉ b ∧ '@' ∉ b) →
    sanitizeName a = a ∧ (sanitizeName a = sanitizeName b ↔ a = b) := by
  intro a b ha hb
  obtain ⟨ha1, ha2, ha3, ha4⟩ := ha
  obtain ⟨hb1, hb2, hb3, hb4⟩ := hb
  have ea := sanitizeName_clean_id a ha1 ha2 ha3 ha4
  have eb := sanitizeName_clean_id b hb1 hb2 hb3 hb4
  refine ⟨ea, ?_⟩
  rw [ea, eb]

/-- Witness for C9 (amended): two clean names. -/
theorem c9_sanitize_injective_on_clean_witness :
    sanitizeName (chars "alpha") = chars "alpha"
    ∧ (sanitizeName (chars "alpha") = sanitizeName (chars "beta")
        ↔ chars "alpha" = chars "beta") :=
  c9_sanitize_injective_on_clean (chars "alpha") (chars "beta")
    (by decide) (by decide)

/-- Claim C3 (code bug): the documentation requires the destructive author
rewrite to run only when the push mode is force (`override = true`), but
`syncJob` gates `rewriteCommitAuthors` only on `rewrite_history` and a
non-empty rule list — with `override = false` (safe mode) the rewrite
still executes. This theorem evaluates the gate at such a failing
configuration. -/
theorem c3_rewrite_not_force_gated :
    syncJobRewriteExecuted
      { jcBase with
          override := false
          rewriteHistory := true
          authorReplace :=
            [{ fromEmail := chars "dev@old.example"
               fromName := []
               toEmail := chars "bot@new.example"
               toName := chars "Sync Bot" }] } = true
    ∧ JobConfig.override
        { jcBase with
            override := false
            rewriteHistory := true
            authorReplace :=
              [{ fromEmail := chars "dev@old.example"
                 fromName := []
                 toEmail := chars "bot@new.example"
                 toName := chars "Sync Bot" }] } = false := by
  constructor
  · decide
  · rfl

/- ### Lemmas about the bucket operations -/

theorem bucketGet_put (b : Bucket) (k : String) (v : Transaction) :
    bucketGet (bucketPut b k v) k = some v := by
  induction b with
  | nil => simp [bucketPut, bucketGet]
  | cons kv rest ih =>
    by_cases hk : kv.1 = k
    · simp [bucketPut, bucketGet, hk]
    · simp [bucketPut, bucketGet, hk, ih]

theorem bucketDelete_eq_filter (b : Bucket) (k : String) :
    bucketDelete b k = b.filter (fun kv => decide (kv.1 ≠ k)) := by
  induction b with
  | nil => rfl
  | cons kv rest ih =>
    by_cases hk : kv.1 = k
    · simp [bucketDelete, hk, ih]
    · simp [bucketDelete, hk, ih]

theorem foldl_bucketDelete_eq_filter (ks : List String) :
    ∀ b : Bucket, ks.foldl bucketDelete b
      = b.filter (fun kv => decide (kv.1 ∉ ks)) := by
  induction ks with
  | nil => intro b; simp
  | cons k ks ih =>
    intro b
    rw [List.foldl_cons, ih, bucketDelete_eq_filter, List.filter_filter]
    apply List.filter_congr
    intro kv _
    by_cases h1 : kv.1 = k
    · simp [h1]
    · by_cases h2 : kv.1 ∈ ks <;> simp [h1, h2]

theorem key_determines_entry (b : Bucket) (hnd : (b.map Prod.fst).Nodup) :
    ∀ kv1 kv2, kv1 ∈ b → kv2 ∈ b → kv1.1 = kv2.1 → kv1 = kv2 := by
  induction b with
  | nil => intro kv1 kv2 h1; simp at h1
  | cons kv rest ih =>
    rw [List.map_cons, List.nodup_cons] at hnd
    intro kv1 kv2 h1 h2 heq
    rcases List.mem_cons.mp h1 with rfl | h1' <;>
      rcases List.mem_cons.mp h2 with rfl | h2'
    · rfl
    · exact absurd (heq ▸ List.mem_map_of_mem Prod.fst h2') hnd.1
    · exact absurd (heq ▸ List.mem_map_of_mem Prod.fst h1') hnd.1
    · exact ih hnd.2 kv1 kv2 h1' h2' heq

/-- Claim C4 (amended): `deleteOlderThan` removes exactly the records
whose end time is before the cutoff, regardless of status — including a
non-terminal `running` record, whose end time is still the zero time —
and every record whose end time is not before the cutoff survives
unchanged (assuming the bucket's keys are distinct, as bbolt guarantees). -/
theorem c4_retention : ∀ (cutoff : Int) (b : Bucket),
    (b.map Prod.fst).Nodup →
    deleteOlderThan cutoff b
      = b.filter (fun kv => !decide (kv.2.endTime < cutoff))
    ∧ (∀ (k : String) (tx : Transaction), (k, tx) ∈ b → tx.endTime < cutoff →
        (k, tx) ∉ deleteOlderThan cutoff b)
    ∧ (∀ (k : String) (tx : Transaction), (k, tx) ∈ b → cutoff < tx.endTime →
        (k, tx) ∈ deleteOlderThan cutoff b) := by
  intro cutoff b hnd
  have hmain : deleteOlderThan cutoff b
      = b.filter (fun kv => !decide (kv.2.endTime < cutoff)) := by
    simp only [deleteOlderThan]
    rw [foldl_bucketDelete_eq_filter]
    apply List.filter_congr
    intro kv hkv
    by_cases hold : kv.2.endTime < cutoff
    · have hmem : kv.1 ∈ (b.filter (fun kv => decide (kv.2.endTime < cutoff))).map
          Prod.fst :=
        List.mem_map_of_mem Prod.fst (List.mem_filter.mpr ⟨hkv, by simpa using hold⟩)
      simp [hmem, hold]
    · have hnmem : kv.1 ∉ (b.filter (fun kv => decide (kv.2.endTime < cutoff))).map
          Prod.fst := by
        intro hcon
        obtain ⟨kv2, hkv2, hkeq⟩ := List.mem_map.mp hcon
        have hm := List.mem_filter.mp hkv2
        have hsame := key_determines_entry b hnd kv2 kv hm.1 hkv hkeq
        rw [hsame] at hm
        exact hold (by simpa using hm.2)
      simp [hnmem, hold]
  refine ⟨hmain, ?_, ?_⟩
  · intro k tx hmem hold hcontra
    rw [hmain] at hcontra
    have hp := (List.mem_filter.mp hcontra).2
    simp only [Bool.not_eq_true'] at hp
    exact absurd hold (by simpa using hp)
  · intro k tx hmem hnew
    rw [hmain]
    exact List.mem_filter.mpr ⟨hmem, by simp [lt_asymm hnew]⟩

/-- Claim C4 counterexample: a non-terminal `running` record (end time
still the zero time) is removed by the retention sweep, contradicting the
claim that only terminal records are deleted. -/
theorem c4_counterexample :
    bucketGet
      (deleteOlderThan 1700000000000000000
        [("k1",
          { id := "k1"
            jobName := "job1"
            repoName := "repo1"
            source := "s"
            target := "t"
            status := statusRunning
            commitHash := ""
            startTime := 1699999999000000000
            endTime := goZeroTime
            error := "" })]) "k1" = none
    ∧ statusRunning ≠ statusSuccess ∧ statusRunning ≠ statusFailed
    ∧ statusRunning ≠ statusSkipped := by
  decide

/-- Witness for C4 (amended): on a two-record bucket, the record with end
time before the cutoff is gone and the newer record survives. -/
theorem c4_retention_witness :
    ("old",
      { id := "old", jobName := "j", repoName := "r", source := "s", target := "t"
        status := statusSuccess, commitHash := "c", startTime := 1, endTime := 50
        error := "" })
      ∉ deleteOlderThan 100
        [("old",
          { id := "old", jobName := "j", repoName := "r", source := "s", target := "t"
            status := statusSuccess, commitHash := "c", startTime := 1, endTime := 50
            error := "" }),
         ("new",
          { id := "new", jobName := "j", repoName := "r", source := "s", target := "t"
            status := statusSuccess, commitHash := "c", startTime := 1, endTime := 200
            error := "" })]
    ∧ ("new",
        { id := "new", jobName := "j", repoName := "r", source := "s", target := "t"
          status := statusSuccess, commitHash := "c", startTime := 1, endTime := 200
          error := "" })
      ∈ deleteOlderThan 100
        [("old",
          { id := "old", jobName := "j", repoName := "r", source := "s", target := "t"
            status := statusSuccess, commitHash := "c", startTime := 1, endTime := 50
            error := "" }),
         ("new",
          { id := "new", jobName := "j", repoName := "r", source := "s", target := "t"
            status := statusSuccess, commitHash := "c", startTime := 1, endTime := 200
            error := "" })] := by
  have h := c4_retention 100
    [("old",
      { id := "old", jobName := "j", repoName := "r", source := "s", target := "t"
        status := statusSuccess, commitHash := "c", startTime := 1, endTime := 50
        error := "" }),
     ("new",
      { id := "new", jobName := "j", repoName := "r", source := "s", target := "t"
        status := statusSuccess, commitHash := "c", startTime := 1, endTime := 200
        error := "" })] (by decide)
  refine ⟨h.2.1 "old" _ (by simp) (by decide), h.2.2 "new" _ (by simp) (by decide)⟩

/-- Claim C5 (code bug): `generateID` is fully determined by the clock —
the "random" suffix indexes the charset by `time.Now().UnixNano()` — so
two record-creation events that observe the same nanosecond readings (for
example concurrent appends from different job runs) receive the same
identifier, and the second `SaveTransaction` overwrites the first record.
This theorem evaluates the store at such a failing pair of events. -/
theorem c5_id_collision :
    (saveTransaction 1700000000000000000 (fun _ => 1700000000000000000)
        { id := "", jobName := "job-a", repoName := "ra", source := "sa", target := "ta"
          status := statusRunning, commitHash := "ca", startTime := 0, endTime := 0
          error := "" } []).1.id
      = (saveTransaction 1700000000000000000 (fun _ => 1700000000000000000)
          { id := "", jobName := "job-b", repoName := "rb", source := "sb", target := "tb"
            status := statusRunning, commitHash := "cb", startTime := 0, endTime := 0
            error := "" }
          (saveTransaction 1700000000000000000 (fun _ => 1700000000000000000)
            { id := "", jobName := "job-a", repoName := "ra", source := "sa", target := "ta"
              status := statusRunning, commitHash := "ca", startTime := 0, endTime := 0
              error := "" } []).2).1.id
    ∧ (saveTransaction 1700000000000000000 (fun _ => 1700000000000000000)
        { id := "", jobName := "job-b", repoName := "rb", source := "sb", target := "tb"
          status := statusRunning, commitHash := "cb", startTime := 0, endTime := 0
          error := "" }
        (saveTransaction 1700000000000000000 (fun _ => 1700000000000000000)
          { id := "", jobName := "job-a", repoName := "ra", source := "sa", target := "ta"
            status := statusRunning, commitHash := "ca", startTime := 0, endTime := 0
            error := "" } []).2).2.length = 1
    ∧ bucketGet
        (saveTransaction 1700000000000000000 (fun _ => 1700000000000000000)
          { id := "", jobName := "job-b", repoName := "rb", source := "sb", target := "tb"
            status := statusRunning, commitHash := "cb", startTime := 0, endTime := 0
            error := "" }
          (saveTransaction 1700000000000000000 (fun _ => 1700000000000000000)
            { id := "", jobName := "job-a", repoName := "ra", source := "sa", target := "ta"
              status := statusRunning, commitHash := "ca", startTime := 0, endTime := 0
              error := "" } []).2).2
        (saveTransaction 1700000000000000000 (fun _ => 1700000000000000000)
          { id := "", jobName := "job-a", repoName := "ra", source := "sa", target := "ta"
            status := statusRunning, commitHash := "ca", startTime := 0, endTime := 0
            error := "" } []).1.id
      ≠ some (saveTransaction 1700000000000000000 (fun _ => 1700000000000000000)
          { id := "", jobName := "job-a", repoName := "ra", source := "sa", target := "ta"
            status := statusRunning, commitHash := "ca", startTime := 0, endTime := 0
            error := "" } []).1 := by
  decide

theorem getRemoteCommitHash_eq_some (env : PushEnv) (r : String)
    (h : getRemoteCommitHash env = some r) : env.targetTip = some r := by
  simp only [getRemoteCommitHash] at h
  by_cases hf : env.fetchTargetOk = true
  · cases ht : env.targetTip with
    | none => simp [hf, ht] at h
    | some t =>
      simp [hf, ht] at h
      rw [h]
  · simp [hf] at h

theorem svcPushToTarget_reduce (jc : JobConfig) (env : PushEnv) (c : String)
    (h1 : env.getUrlOk = true → env.setUrlOk = true)
    (h2 : env.getUrlOk = false → env.addOk = true)
    (hl : env.localCommit = some c) :
    svcPushToTarget jc env =
      match getRemoteCommitHash env with
      | some r =>
        if r = c
        then { result := SvcPushResult.skipped c, finalTip := env.targetTip }
        else svcDoPush jc env c
      | none => svcDoPush jc env c := by
  have hc1 : ¬ (env.getUrlOk = false ∧ env.addOk = false) := by
    rintro ⟨hg, ha⟩
    rw [h2 hg] at ha
    exact Bool.noConfusion ha
  have hc2 : ¬ (env.getUrlOk = true ∧ env.setUrlOk = false) := by
    rintro ⟨hg, hs2⟩
    rw [h1 hg] at hs2
    exact Bool.noConfusion hs2
  simp only [svcPushToTarget]
  rw [if_neg hc1, if_neg hc2, hl]

/-- Claim C10: with the remote set up and the local commit resolved, a
failure to resolve the target's current commit does not fail or skip the
attempt — the engine still pushes — and an attempt is classified as a
skip exactly when the target's commit resolved successfully to the local
commit. -/
theorem c10_push_on_unresolved_target : ∀ (jc : JobConfig) (env : PushEnv) (c : String),
    (env.getUrlOk = true → env.setUrlOk = true) →
    (env.getUrlOk = false → env.addOk = true) →
    env.localCommit = some c →
    (getRemoteCommitHash env = none →
      (svcPushToTarget jc env).result = SvcPushResult.pushedOk jc.override
      ∨ (svcPushToTarget jc env).result = SvcPushResult.pushFailed jc.override)
    ∧ ((svcPushToTarget jc env).result = SvcPushResult.skipped c
        ↔ getRemoteCommitHash env = some c) := by
  intro jc env c h1 h2 hl
  rw [svcPushToTarget_reduce jc env c h1 h2 hl]
  constructor
  · intro hr
    rw [hr]
    cases hg : gitPush env.ancestorOf env.targetTip c jc.override with
    | some t => left; simp [svcDoPush, hg]
    | none => right; simp [svcDoPush, hg]
  · cases hr : getRemoteCommitHash env with
    | none =>
      cases hg : gitPush env.ancestorOf env.targetTip c jc.override with
      | some t => simp [svcDoPush, hg]
      | none => simp [svcDoPush, hg]
    | some r =>
      by_cases hrc : r = c
      · subst hrc
        simp
      · cases hg : gitPush env.ancestorOf env.targetTip c jc.override with
        | some t => simp [svcDoPush, hg, hrc, Ne.symm hrc]
        | none => simp [svcDoPush, hg, hrc, Ne.symm hrc]

/-- Witness for C10: a target whose branch does not exist yet (the fetch
of the branch fails, so the target commit cannot be resolved) is still
pushed to. -/
theorem c10_push_on_unresolved_target_witness :
    ((svcPushToTarget jcBase
        { getUrlOk := true
          addOk := true
          setUrlOk := true
          localCommit := some "c1"
          fetchTargetOk := false
          targetTip := none
          ancestorOf := fun _ _ => false }).result
      = SvcPushResult.pushedOk false
      ∨ (svcPushToTarget jcBase
          { getUrlOk := true
            addOk := true
            setUrlOk := true
            localCommit := some "c1"
            fetchTargetOk := false
            targetTip := none
            ancestorOf := fun _ _ => false }).result
        = SvcPushResult.pushFailed false)
    ∧ ¬ (svcPushToTarget jcBase
        { getUrlOk := true
          addOk := true
          setUrlOk := true
          localCommit := some "c1"
          fetchTargetOk := false
          targetTip := none
          ancestorOf := fun _ _ => false }).result
      = SvcPushResult.skipped "c1" := by
  have h := c10_push_on_unresolved_target jcBase
    { getUrlOk := true
      addOk := true
      setUrlOk := true
      localCommit := some "c1"
      fetchTargetOk := false
      targetTip := none
      ancestorOf := fun _ _ => false } "c1"
    (fun _ => rfl) (fun hc => Bool.noConfusion hc) rfl
  refine ⟨h.1 rfl, ?_⟩
  intro hc
  have := h.2.mp hc
  exact Option.noConfusion this

/-- Claim C2 counterexample: in safe mode, on a diverged target (its tip
is not an ancestor of the pushed commit) the plain push fails — but no
`failed` TransactionRecord is written, because the engine that has a push
mode writes no ledger records at all; the failure is only logged. -/
theorem c2_counterexample :
    (svcPushToTarget jcBase
        { getUrlOk := true
          addOk := true
          setUrlOk := true
          localCommit := some "c1"
          fetchTargetOk := true
          targetTip := some "c2"
          ancestorOf := fun _ _ => false }).result
      = SvcPushResult.pushFailed false
    ∧ svcPushLedgerWrites jcBase
        { getUrlOk := true
          addOk := true
          setUrlOk := true
          localCommit := some "c1"
          fetchTargetOk := true
          targetTip := some "c2"
          ancestorOf := fun _ _ => false } = [] := by
  exact ⟨by decide, rfl⟩

theorem svcPushToTarget_skip (jc : JobConfig) (env : PushEnv) (c : String)
    (h1 : env.getUrlOk = true → env.setUrlOk = true)
    (h2 : env.getUrlOk = false → env.addOk = true)
    (hl : env.localCommit = some c)
    (hr : getRemoteCommitHash env = some c) :
    svcPushToTarget jc env
      = { result := SvcPushResult.skipped c, finalTip := env.targetTip } := by
  rw [svcPushToTarget_reduce jc env c h1 h2 hl, hr]
  simp

theorem svcPushToTarget_doPush_of_some (jc : JobConfig) (env : PushEnv) (c r : String)
    (h1 : env.getUrlOk = true → env.setUrlOk = true)
    (h2 : env.getUrlOk = false → env.addOk = true)
    (hl : env.localCommit = some c)
    (hr : getRemoteCommitHash env = some r) (hrc : r ≠ c) :
    svcPushToTarget jc env = svcDoPush jc env c := by
  rw [svcPushToTarget_reduce jc env c h1 h2 hl, hr]
  simp [hrc]

theorem svcPushToTarget_doPush_of_none (jc : JobConfig) (env : PushEnv) (c : String)
    (h1 : env.getUrlOk = true → env.setUrlOk = true)
    (h2 : env.getUrlOk = false → env.addOk = true)
    (hl : env.localCommit = some c)
    (hr : getRemoteCommitHash env = none) :
    svcPushToTarget jc env = svcDoPush jc env c := by
  rw [svcPushToTarget_reduce jc env c h1 h2 hl, hr]

theorem svcDoPush_force (jc : JobConfig) (env : PushEnv) (c : String)
    (hov : jc.override = true) :
    svcDoPush jc env c
      = { result := SvcPushResult.pushedOk true, finalTip := some c } := by
  simp [svcDoPush, gitPush, hov]

theorem svcDoPush_safe_absent (jc : JobConfig) (env : PushEnv) (c : String)
    (hov : jc.override = false) (ht : env.targetTip = none) :
    svcDoPush jc env c
      = { result := SvcPushResult.pushedOk false, finalTip := some c } := by
  simp [svcDoPush, gitPush, hov, ht]

theorem svcDoPush_safe_ff (jc : JobConfig) (env : PushEnv) (c t : String)
    (hov : jc.override = false) (ht : env.targetTip = some t)
    (ha : env.ancestorOf t c = true) :
    svcDoPush jc env c
      = { result := SvcPushResult.pushedOk false, finalTip := some c } := by
  simp [svcDoPush, gitPush, hov, ht, ha]

theorem svcDoPush_safe_diverged (jc : JobConfig) (env : PushEnv) (c t : String)
    (hov : jc.override = false) (ht : env.targetTip = some t)
    (ha : env.ancestorOf t c = false) :
    svcDoPush jc env c
      = { result := SvcPushResult.pushFailed false, finalTip := some t } := by
  simp [svcDoPush, gitPush, hov, ht, ha]

/-- Claim C2 (amended): given remote setup and local-commit resolution
succeed, safe mode (`override = false`) issues a plain push that succeeds
only when the target branch is absent or its tip is an ancestor of the
pushed commit; on divergence the attempt fails with the target unchanged
and no transaction record is written (the failure is logged per target,
not fatal to the job). Force mode (`override = true`) always leaves the
target at the pushed commit. -/
theorem c2_push_modes : ∀ (jc : JobConfig) (env : PushEnv) (c : String),
    (env.getUrlOk = true → env.setUrlOk = true) →
    (env.getUrlOk = false → env.addOk = true) →
    env.localCommit = some c →
    (jc.override = false →
      (svcPushToTarget jc env).result = SvcPushResult.pushedOk false →
      env.targetTip = none
      ∨ ∃ t0, env.targetTip = some t0 ∧ env.ancestorOf t0 c = true)
    ∧ (∀ t : String, jc.override = false → env.targetTip = some t →
        env.ancestorOf t c = false → getRemoteCommitHash env ≠ some c →
        (svcPushToTarget jc env).result = SvcPushResult.pushFailed false
        ∧ (svcPushToTarget jc env).finalTip = some t
        ∧ svcPushLedgerWrites jc env = [])
    ∧ (jc.override = true → (svcPushToTarget jc env).finalTip = some c) := by
  intro jc env c h1 h2 hl
  refine ⟨?_, ?_, ?_⟩
  · intro hov hres
    cases ht : env.targetTip with
    | none => exact Or.inl rfl
    | some t0 =>
      by_cases ha : env.ancestorOf t0 c = true
      · exact Or.inr ⟨t0, rfl, ha⟩
      · exfalso
        have hdp : svcDoPush jc env c
            = { result := SvcPushResult.pushFailed false, finalTip := some t0 } :=
          svcDoPush_safe_diverged jc env c t0 hov ht (by simpa using ha)
        cases hr : getRemoteCommitHash env with
        | some r =>
          by_cases hrc : r = c
          · subst hrc
            rw [svcPushToTarget_skip jc env r h1 h2 hl hr] at hres
            exact absurd hres (by simp)
          · rw [svcPushToTarget_doPush_of_some jc env c r h1 h2 hl hr hrc, hdp] at hres
            exact absurd hres (by simp)
        | none =>
          rw [svcPushToTarget_doPush_of_none jc env c h1 h2 hl hr, hdp] at hres
          exact absurd hres (by simp)
  · intro t hov ht ha hne
    have hdp : svcDoPush jc env c
        = { result := SvcPushResult.pushFailed false, finalTip := some t } :=
      svcDoPush_safe_diverged jc env c t hov ht ha
    cases hr : getRemoteCommitHash env with
    | some r =>
      have hrc : r ≠ c := fun hcc => hne (hcc ▸ hr)
      rw [svcPushToTarget_doPush_of_some jc env c r h1 h2 hl hr hrc, hdp]
      exact ⟨rfl, rfl, rfl⟩
    | none =>
      rw [svcPushToTarget_doPush_of_none jc env c h1 h2 hl hr, hdp]
      exact ⟨rfl, rfl, rfl⟩
  · intro hov
    cases hr : getRemoteCommitHash env with
    | some r =>
      by_cases hrc : r = c
      · subst hrc
        rw [svcPushToTarget_skip jc env r h1 h2 hl hr]
        exact getRemoteCommitHash_eq_some env r hr
      · rw [svcPushToTarget_doPush_of_some jc env c r h1 h2 hl hr hrc,
          svcDoPush_force jc env c hov]
    | none =>
      rw [svcPushToTarget_doPush_of_none jc env c h1 h2 hl hr,
        svcDoPush_force jc env c hov]

/-- Witness for C2 (amended): a concrete diverged safe-mode attempt fails
with the target unchanged and no record written; the same attempt in
force mode leaves the target at the pushed commit. -/
theorem c2_push_modes_witness :
    ((svcPushToTarget jcBase
        { getUrlOk := true
          addOk := true
          setUrlOk := true
          localCommit := some "c1"
          fetchTargetOk := true
          targetTip := some "c2"
          ancestorOf := fun _ _ => false }).result
      = SvcPushResult.pushFailed false
    ∧ (svcPushToTarget jcBase
        { getUrlOk := true
          addOk := true
          setUrlOk := true
          localCommit := some "c1"
          fetchTargetOk := true
          targetTip := some "c2"
          ancestorOf := fun _ _ => false }).finalTip = some "c2"
    ∧ svcPushLedgerWrites jcBase
        { getUrlOk := true
          addOk := true
          setUrlOk := true
          localCommit := some "c1"
          fetchTargetOk := true
          targetTip := some "c2"
          ancestorOf := fun _ _ => false } = [])
    ∧ (svcPushToTarget { jcBase with override := true }
        { getUrlOk := true
          addOk := true
          setUrlOk := true
          localCommit := some "c1"
          fetchTargetOk := true
          targetTip := some "c2"
          ancestorOf := fun _ _ => false }).finalTip = some "c1" := by
  constructor
  · exact (c2_push_modes jcBase
      { getUrlOk := true
        addOk := true
        setUrlOk := true
        localCommit := some "c1"
        fetchTargetOk := true
        targetTip := some "c2"
        ancestorOf := fun _ _ => false } "c1"
      (fun _ => rfl) (fun hc => Bool.noConfusion hc) rfl).2.1 "c2" rfl rfl rfl
      (by decide)
  · exact (c2_push_modes { jcBase with override := true }
      { getUrlOk := true
        addOk := true
        setUrlOk := true
        localCommit := some "c1"
        fetchTargetOk := true
        targetTip := some "c2"
        ancestorOf := fun _ _ => false } "c1"
      (fun _ => rfl) (fun hc => Bool.noConfusion hc) rfl).2.2 rfl

theorem generateID_ne_empty (nano : Int) (charClock : Nat → Int) :
    generateID nano charClock ≠ "" := by
  intro h
  have h2 := congrArg String.data h
  simp [generateID] at h2

/-- Claim C1 counterexample: in the ledger-writing engine, when the
target's current commit already equals the local commit the attempt is
not recorded as `skipped` — the engine still issues a (forced) push and
records `success`. -/
theorem c1_counterexample :
    V3PushEnv.targetTip
      { getUrlOk := true, addOk := true, setUrlOk := true
        targetTip := some "c1", pushNetOk := true, errText := "e" } = some "c1"
    ∧ (ledgerAttempt "job1" "repo1" "src" "tgt" "c1"
        { getUrlOk := true, addOk := true, setUrlOk := true
          targetTip := some "c1", pushNetOk := true, errText := "e" }
        { startNano := 1, idNano := 5, idCharClock := fun _ => 7, endNano := 2 }
        []).1.pushIssued = true
    ∧ ((ledgerAttempt "job1" "repo1" "src" "tgt" "c1"
        { getUrlOk := true, addOk := true, setUrlOk := true
          targetTip := some "c1", pushNetOk := true, errText := "e" }
        { startNano := 1, idNano := 5, idCharClock := fun _ => 7, endNano := 2 }
        []).2.1).map Transaction.status = [statusRunning, statusSuccess] := by
  refine ⟨rfl, ?_, ?_⟩
  · decide
  · decide

/-- Claim C1 (amended): in the ledger-writing engine every push attempt
saves exactly two states of one record — created `running`, then mutated
in place (same identifier) to `success` or `failed`, with `success`
exactly when the push succeeded — and the bucket afterwards holds the
terminal state under that identifier; a `skipped` status is never
recorded, and the push is attempted even when the target is already at
the local commit. The equal-commit skip exists only in the current
engine's `pushToTarget`, which performs no push and leaves the target
unchanged when the resolved target commit equals the local commit, but
writes no transaction record. -/
theorem c1_transaction_lifecycle :
    (∀ (jn rn src tgt ch : String) (env : V3PushEnv) (times : AttemptTimes)
        (b : Bucket),
      ∃ tx1 tx2 : Transaction,
        (ledgerAttempt jn rn src tgt ch env times b).2.1 = [tx1, tx2]
        ∧ tx1.status = statusRunning
        ∧ tx2.id = tx1.id
        ∧ (tx2.status = statusSuccess ∨ tx2.status = statusFailed)
        ∧ tx2.status ≠ statusSkipped
        ∧ bucketGet (ledgerAttempt jn rn src tgt ch env times b).2.2 tx2.id
            = some tx2
        ∧ (tx2.status = statusSuccess
            ↔ (v3PushToTarget env ch).result = V3Result.pushedOk))
    ∧ (∀ (jc : JobConfig) (env : PushEnv) (c : String),
        (env.getUrlOk = true → env.setUrlOk = true) →
        (env.getUrlOk = false → env.addOk = true) →
        env.localCommit = some c →
        getRemoteCommitHash env = some c →
        (svcPushToTarget jc env).result = SvcPushResult.skipped c
        ∧ (svcPushToTarget jc env).finalTip = env.targetTip
        ∧ svcPushLedgerWrites jc env = []) := by
  constructor
  · intro jn rn src tgt ch env times b
    have hne := generateID_ne_empty times.idNano times.idCharClock
    by_cases hres : (v3PushToTarget env ch).result = V3Result.pushedOk
    · refine
        ⟨{ id := generateID times.idNano times.idCharClock, jobName := jn
           repoName := rn, source := src, target := tgt, status := statusRunning
           commitHash := ch, startTime := times.startNano, endTime := goZeroTime
           error := "" },
         { id := generateID times.idNano times.idCharClock, jobName := jn
           repoName := rn, source := src, target := tgt, status := statusSuccess
           commitHash := ch, startTime := times.startNano, endTime := times.endNano
           error := "" }, ?_, rfl, rfl, Or.inl rfl,
         fun h => absurd (show statusSuccess = statusSkipped from h) (by decide),
         ?_, ?_⟩
      · simp only [ledgerAttempt]
        rw [if_pos hres]
        simp [saveTransaction, hne]
      · simp only [ledgerAttempt]
        rw [if_pos hres]
        simp [saveTransaction, hne]
        exact bucketGet_put _ _ _
      · exact iff_of_true rfl hres
    · refine
        ⟨{ id := generateID times.idNano times.idCharClock, jobName := jn
           repoName := rn, source := src, target := tgt, status := statusRunning
           commitHash := ch, startTime := times.startNano, endTime := goZeroTime
           error := "" },
         { id := generateID times.idNano times.idCharClock, jobName := jn
           repoName := rn, source := src, target := tgt, status := statusFailed
           commitHash := ch, startTime := times.startNano, endTime := times.endNano
           error := env.errText }, ?_, rfl, rfl, Or.inr rfl,
         fun h => absurd (show statusFailed = statusSkipped from h) (by decide),
         ?_, ?_⟩
      · simp only [ledgerAttempt]
        rw [if_neg hres]
        simp [saveTransaction, hne]
      · simp only [ledgerAttempt]
        rw [if_neg hres]
        simp [saveTransaction, hne]
        exact bucketGet_put _ _ _
      · exact iff_of_false
          (fun h => absurd (show statusFailed = statusSuccess from h) (by decide)) hres
  · intro jc env c h1 h2 hl hr
    rw [svcPushToTarget_skip jc env c h1 h2 hl hr]
    exact ⟨rfl, rfl, rfl⟩

/-- Witness for C1 (amended): in the current engine, a target already at
the local commit is classified as a skip (no push performed). -/
theorem c1_transaction_lifecycle_witness :
    (svcPushToTarget jcBase
        { getUrlOk := true
          addOk := true
          setUrlOk := true
          localCommit := some "c1"
          fetchTargetOk := true
          targetTip := some "c1"
          ancestorOf := fun _ _ => false }).result
      = SvcPushResult.skipped "c1" := by
  exact (c1_transaction_lifecycle.2 jcBase
    { getUrlOk := true
      addOk := true
      setUrlOk := true
      localCommit := some "c1"
      fetchTargetOk := true
      targetTip := some "c1"
      ancestorOf := fun _ _ => false } "c1"
    (fun _ => rfl) (fun hc => Bool.noConfusion hc) rfl (by decide)).1
